import Mathlib

/-!
Verification of the Screenshot Renamer core pipeline.

The JavaScript sources are embedded shallowly: strings are `List Char`
(`Str`), JS regular-expression passes become recursive list transforms,
machine timestamps are `Nat` parameters, and every effectful call
(filesystem access, network request, clipboard strategy) is modelled by an
explicit input describing its outcome or by an emitted operation trace.
-/

namespace ScreenshotRenamer

/-- Strings are modelled as lists of characters (JS strings over scalar values). -/
abbrev Str := List Char

/-- Shorthand to turn a Lean string literal into the `Str` model. -/
def str (s : String) : Str := s.toList

/-! ### Character classes used by the JS regexes -/

/-- Evaluation lemma for `Char.ofNat` on valid code points. -/
theorem char_toNat_ofNat {n : Nat} (h : n.isValidChar) : (Char.ofNat n).toNat = n := by
  simp only [Char.ofNat, dif_pos h, Char.ofNatAux, Char.toNat, UInt32.toNat,
    BitVec.toNat_ofNatLt]

/-- JS regex `\w` (no `u` flag): ASCII letters, digits and underscore. -/
def isJsWordChar (c : Char) : Bool :=
  decide ((97 ≤ c.toNat ∧ c.toNat ≤ 122) ∨ (65 ≤ c.toNat ∧ c.toNat ≤ 90) ∨
    (48 ≤ c.toNat ∧ c.toNat ≤ 57) ∨ c.toNat = 95)

/-- The character set matched by JS regex `\s` (ECMAScript WhiteSpace and
LineTerminator code points). -/
def jsWhitespaceChars : Str :=
  [' ', '\t', '\n', '\u000B', '\u000C', '\r', '\u00A0', '\u1680',
   '\u2000', '\u2001', '\u2002', '\u2003', '\u2004', '\u2005', '\u2006',
   '\u2007', '\u2008', '\u2009', '\u200A', '\u2028', '\u2029', '\u202F',
   '\u205F', '\u3000', '\uFEFF']

/-- JS regex `\s`. -/
def isJsSpace (c : Char) : Bool := jsWhitespaceChars.contains c

/-- JS regex `\d`: ASCII digits. -/
def isJsDigit (c : Char) : Bool := decide (48 ≤ c.toNat ∧ c.toNat ≤ 57)

/-- ASCII hyphen test (the `-` kept by the cleaning regex). -/
def isHyphen (c : Char) : Bool := decide (c.toNat = 45)

/-- JS `String.prototype.toLowerCase`, per character. Exact on ASCII; the
non-ASCII letters on which Unicode lowercasing differs are all removed by the
`[^\w\s-]` filter that follows every use of lowercasing in this codebase. -/
def jsToLower (c : Char) : Char :=
  if 65 ≤ c.toNat ∧ c.toNat ≤ 90 then Char.ofNat (c.toNat + 32) else c

/-- Lowercasing never produces an ASCII uppercase letter. -/
theorem jsToLower_not_upper (c : Char) :
    ¬(65 ≤ (jsToLower c).toNat ∧ (jsToLower c).toNat ≤ 90) := by
  unfold jsToLower
  split
  · rename_i h
    have hv : (c.toNat + 32).isValidChar := by
      left
      omega
    rw [char_toNat_ofNat hv]
    omega
  · rename_i h
    exact h

/-- Characters allowed in a cleaned stem: lowercase ASCII letters, digits,
underscore, hyphen. -/
def isCleanChar (c : Char) : Bool :=
  decide ((97 ≤ c.toNat ∧ c.toNat ≤ 122) ∨ (48 ≤ c.toNat ∧ c.toNat ≤ 57) ∨
    c.toNat = 95 ∨ c.toNat = 45)

/-! ### Generic list passes modelling the regex replacements -/

/-- Worker for replacing every run of `p`-characters by the single character
`r` (JS `replace(/p+/g, r)`); `inRun` records whether the previous character
was part of a run. -/
def replaceRunsGo (p : Char → Bool) (r : Char) : Bool → Str → Str
  | _, [] => []
  | inRun, c :: cs =>
    if p c then
      if inRun then replaceRunsGo p r true cs
      else r :: replaceRunsGo p r true cs
    else c :: replaceRunsGo p r false cs

/-- JS `replace(/p+/g, r)` for a character class `p`. -/
def replaceRuns (p : Char → Bool) (r : Char) (l : Str) : Str :=
  replaceRunsGo p r false l

/-- Every character of a run-replacement output is the replacement character
or a source character not matched by `p`. -/
theorem mem_replaceRunsGo {p : Char → Bool} {r : Char} {c : Char} :
    ∀ {b : Bool} {l : Str}, c ∈ replaceRunsGo p r b l →
      c = r ∨ (c ∈ l ∧ p c = false) := by
  intro b l
  induction l generalizing b with
  | nil => simp [replaceRunsGo]
  | cons a as ih =>
    simp only [replaceRunsGo]
    split
    · rename_i hpa
      split
      · intro h
        rcases ih h with h' | h'
        · exact Or.inl h'
        · exact Or.inr ⟨List.mem_cons_of_mem _ h'.1, h'.2⟩
      · intro h
        rcases List.mem_cons.mp h with h' | h'
        · exact Or.inl h'
        · rcases ih h' with h'' | h''
          · exact Or.inl h''
          · exact Or.inr ⟨List.mem_cons_of_mem _ h''.1, h''.2⟩
    · rename_i hpa
      intro h
      rcases List.mem_cons.mp h with h' | h'
      · subst h'
        exact Or.inr ⟨List.mem_cons_self _ _, Bool.of_not_eq_true hpa⟩
      · rcases ih h' with h'' | h''
        · exact Or.inl h''
        · exact Or.inr ⟨List.mem_cons_of_mem _ h''.1, h''.2⟩

theorem mem_replaceRuns {p : Char → Bool} {r : Char} {c : Char} {l : Str}
    (h : c ∈ replaceRuns p r l) : c = r ∨ (c ∈ l ∧ p c = false) :=
  mem_replaceRunsGo h

/-- JS `replace(/^x/, '')`: drop one leading occurrence of character `x`. -/
def dropOneLeading (x : Char) : Str → Str
  | [] => []
  | c :: cs => if c = x then cs else c :: cs

/-- JS `replace(/x$/, '')`: drop one trailing occurrence of character `x`. -/
def dropOneTrailing (x : Char) (l : Str) : Str :=
  (dropOneLeading x l.reverse).reverse

theorem mem_dropOneLeading {x c : Char} {l : Str} (h : c ∈ dropOneLeading x l) :
    c ∈ l := by
  cases l with
  | nil => simp [dropOneLeading] at h
  | cons a as =>
    simp only [dropOneLeading] at h
    split at h
    · exact List.mem_cons_of_mem _ h
    · exact h

theorem mem_dropOneTrailing {x c : Char} {l : Str} (h : c ∈ dropOneTrailing x l) :
    c ∈ l := by
  unfold dropOneTrailing at h
  rw [List.mem_reverse] at h
  have := mem_dropOneLeading h
  rwa [List.mem_reverse] at this

/-! ### The shared stem-cleaning transform

`ai-utils.js` `cleanFilename`, and the identical inline cleaning in
`folder-watcher.js` / `batch-renamer.js` `generateFileName`:
lowercase, strip `[^\w\s-]`, `\s+` to `_`, collapse `_+`, trim one leading and
one trailing `_` (the regex `/^_|_$/g`), truncate to 50 characters. -/

def cleanStem (text : Str) : Str :=
  let lowered := text.map jsToLower
  let kept := lowered.filter (fun c => isJsWordChar c || isJsSpace c || isHyphen c)
  let spaced := replaceRuns isJsSpace '_' kept
  let collapsed := replaceRuns (fun c => c == '_') '_' spaced
  let trimmed := dropOneTrailing '_' (dropOneLeading '_' collapsed)
  trimmed.take 50

/-- `ai-utils.js` `cleanFilename`: the shared cleaner with the
`|| 'analyzed_image'` fallback for an empty result. -/
def cleanFilename (text : Str) : Str :=
  let s := cleanStem text
  if s.isEmpty then str "analyzed_image" else s

/-- Every character surviving `cleanStem` is a lowercase word character,
an underscore or a hyphen. -/
theorem cleanStem_chars {text : Str} {c : Char} (h : c ∈ cleanStem text) :
    isCleanChar c = true := by
  unfold cleanStem at h
  have h5 := List.mem_of_mem_take h
  have h4 := mem_dropOneLeading (mem_dropOneTrailing h5)
  rcases mem_replaceRuns h4 with h3 | ⟨h3, hne⟩
  · subst h3
    decide
  · rcases mem_replaceRuns h3 with h2 | ⟨h2, hns⟩
    · subst h2
      decide
    · have hkeep := List.of_mem_filter h2
      have hmem := List.mem_of_mem_filter h2
      rcases List.mem_map.mp hmem with ⟨a, _, ha⟩
      have hnu := jsToLower_not_upper a
      rw [ha] at hnu
      simp only [Bool.or_eq_true] at hkeep
      rcases hkeep with (hw | hs) | hh
      · unfold isJsWordChar at hw
        unfold isCleanChar
        rw [decide_eq_true_iff] at hw ⊢
        omega
      · rw [hs] at hns
        simp at hns
      · unfold isHyphen at hh
        unfold isCleanChar
        rw [decide_eq_true_iff] at hh ⊢
        omega

/-- The cleaned stem never exceeds 50 characters. -/
theorem cleanStem_length (text : Str) : (cleanStem text).length ≤ 50 := by
  unfold cleanStem
  exact List.length_take_le 50 _

/-- Claim C2: for every analyzer text input, `cleanFilename` returns a
non-empty string of at most 50 characters (before the extension is appended)
consisting only of lowercase word characters and separators. -/
theorem cleanFilename_output_guarantee (text : Str) :
    cleanFilename text ≠ [] ∧ (cleanFilename text).length ≤ 50 ∧
      ∀ c ∈ cleanFilename text, isCleanChar c = true := by
  unfold cleanFilename
  by_cases he : (cleanStem text).isEmpty
  · rw [if_pos he]
    refine ⟨by decide, by decide, ?_⟩
    have hall : ∀ c ∈ str "analyzed_image", isCleanChar c = true := by decide
    exact hall
  · rw [if_neg he]
    refine ⟨?_, cleanStem_length text, fun c hc => cleanStem_chars hc⟩
    intro hnil
    rw [hnil] at he
    exact he rfl

/-! ### Decimal rendering of counters and timestamps

JS template interpolation `${n}` renders a natural number in decimal. -/

/-- Decimal digit character for `d < 10`. -/
def digitChar (d : Nat) : Char := Char.ofNat (48 + d)

/-- Little-endian decimal digits; `fuel` bounds the recursion (`n` iterations
always suffice). -/
def natDigitsRevAux : Nat → Nat → Str
  | 0, _ => []
  | fuel + 1, n => if n = 0 then [] else digitChar (n % 10) :: natDigitsRevAux fuel (n / 10)

/-- Decimal rendering of a natural number, as produced by JS `${n}`. -/
def natRepr (n : Nat) : Str :=
  if n = 0 then ['0'] else (natDigitsRevAux n n).reverse

/-- Value of a little-endian digit string; inverse of `natDigitsRevAux`. -/
def digitsVal : Str → Nat
  | [] => 0
  | c :: cs => (c.toNat - 48) + 10 * digitsVal cs

theorem digitsVal_natDigitsRevAux :
    ∀ fuel n, n ≤ fuel → digitsVal (natDigitsRevAux fuel n) = n := by
  intro fuel
  induction fuel with
  | zero =>
    intro n hn
    interval_cases n
    rfl
  | succ f ih =>
    intro n hn
    by_cases h0 : n = 0
    · subst h0
      simp [natDigitsRevAux, digitsVal]
    · have hdiv : n / 10 < n := Nat.div_lt_self (Nat.pos_of_ne_zero h0) (by omega)
      have hvalid : (48 + n % 10).isValidChar := by
        left
        have := Nat.mod_lt n (show 0 < 10 by omega)
        omega
      simp only [natDigitsRevAux, if_neg h0, digitsVal, digitChar,
        char_toNat_ofNat hvalid]
      rw [ih (n / 10) (by omega)]
      omega

theorem natRepr_injective : ∀ {m n : Nat}, natRepr m = natRepr n → m = n := by
  intro m n h
  unfold natRepr at h
  by_cases hm : m = 0 <;> by_cases hn : n = 0
  · omega
  · rw [if_pos hm, if_neg hn] at h
    have := digitsVal_natDigitsRevAux n n le_rfl
    rw [← List.reverse_inj] at h
    simp only [List.reverse_reverse] at h
    rw [← h] at this
    simp [digitsVal] at this
    omega
  · rw [if_neg hm, if_pos hn] at h
    have := digitsVal_natDigitsRevAux m m le_rfl
    rw [← List.reverse_inj] at h
    simp only [List.reverse_reverse] at h
    rw [h] at this
    simp [digitsVal] at this
    omega
  · rw [if_neg hm, if_neg hn, List.reverse_inj] at h
    have hm' := digitsVal_natDigitsRevAux m m le_rfl
    have hn' := digitsVal_natDigitsRevAux n n le_rfl
    rw [h] at hm'
    omega

theorem natRepr_ne_nil (n : Nat) : natRepr n ≠ [] := by
  unfold natRepr
  split
  · simp
  · rename_i h
    intro hc
    rw [List.reverse_eq_nil_iff] at hc
    have := digitsVal_natDigitsRevAux n n le_rfl
    rw [hc] at this
    simp [digitsVal] at this
    omega

/-! ### Conflict resolution

`folder-watcher.js` / `batch-renamer.js` `generateFileName` (the
`while (true)` existence loop) and `batch-settings.js` `findUniqueFilename`
share this shape: propose `stem + ext`, and while the proposed name exists in
the target directory, bump a counter and propose `stem_<counter> + ext`. -/

/-- The name proposed for a given counter value: the plain `stem + ext` for
counter 1, `stem_<counter> + ext` afterwards. -/
def conflictCandidate (stem ext : Str) (counter : Nat) : Str :=
  if counter = 1 then stem ++ ext else stem ++ '_' :: (natRepr counter ++ ext)

theorem conflictCandidate_injective (stem ext : Str) {j k : Nat}
    (h : conflictCandidate stem ext j = conflictCandidate stem ext k) : j = k := by
  unfold conflictCandidate at h
  by_cases hj : j = 1 <;> by_cases hk : k = 1
  · omega
  · rw [if_pos hj, if_neg hk] at h
    have := congrArg List.length h
    simp only [List.length_append, List.length_cons] at this
    omega
  · rw [if_neg hj, if_pos hk] at h
    have := congrArg List.length h
    simp only [List.length_append, List.length_cons] at this
    omega
  · rw [if_neg hj, if_neg hk] at h
    have h1 := List.append_cancel_left h
    have h2 : natRepr j ++ ext = natRepr k ++ ext := by
      injection h1
    exact natRepr_injective (List.append_cancel_right h2)

/-- The existence loop, returning the chosen name together with the list of
names whose existence it checked (each check is one `fs.promises.access`
call). `fuel` bounds the iteration count; `|dir| + 1` tries always reach a
free name. -/
def findUniqueFromT (stem ext : Str) (dir : List Str) : Nat → Nat → Str × List Str
  | _, 0 => (conflictCandidate stem ext 1, [])
  | counter, fuel + 1 =>
    let c := conflictCandidate stem ext counter
    if c ∈ dir then
      let r := findUniqueFromT stem ext dir (counter + 1) fuel
      (r.1, c :: r.2)
    else (c, [c])

/-- The conflict-resolution loop as called with counter 1 and enough fuel. -/
def findUniqueFilename (stem ext : Str) (dir : List Str) : Str :=
  (findUniqueFromT stem ext dir 1 (dir.length + 1)).1

theorem findUniqueFromT_not_mem (stem ext : Str) (dir : List Str) :
    ∀ fuel counter,
      (∃ k, counter ≤ k ∧ k < counter + fuel ∧ conflictCandidate stem ext k ∉ dir) →
      (findUniqueFromT stem ext dir counter fuel).1 ∉ dir := by
  intro fuel
  induction fuel with
  | zero =>
    intro counter ⟨k, h1, h2, _⟩
    omega
  | succ f ih =>
    intro counter ⟨k, h1, h2, h3⟩
    simp only [findUniqueFromT]
    split
    · rename_i hmem
      apply ih
      refine ⟨k, ?_, by omega, h3⟩
      rcases Nat.eq_or_lt_of_le h1 with h | h
      · subst h
        exact absurd hmem h3
      · omega
    · rename_i hmem
      exact hmem

/-- Pigeonhole: among the candidates for counters `1 .. |dir| + 1`, at least
one is not in `dir`. -/
theorem conflictCandidate_exists_free (stem ext : Str) (dir : List Str) :
    ∃ k, 1 ≤ k ∧ k < 1 + (dir.length + 1) ∧ conflictCandidate stem ext k ∉ dir := by
  by_contra hall
  push_neg at hall
  have hin : ∀ i ∈ Finset.range (dir.length + 1), conflictCandidate stem ext (i + 1) ∈ dir.toFinset := by
    intro i hi
    rw [Finset.mem_range] at hi
    rw [List.mem_toFinset]
    exact hall (i + 1) (by omega) (by omega)
  have hsub : (Finset.range (dir.length + 1)).image (fun i => conflictCandidate stem ext (i + 1)) ⊆ dir.toFinset := by
    intro x hx
    rw [Finset.mem_image] at hx
    obtain ⟨i, hi, rfl⟩ := hx
    exact hin i hi
  have hcard : ((Finset.range (dir.length + 1)).image (fun i => conflictCandidate stem ext (i + 1))).card = dir.length + 1 := by
    rw [Finset.card_image_of_injOn, Finset.card_range]
    intro a _ b _ hab
    have := conflictCandidate_injective stem ext hab
    omega
  have hle := Finset.card_le_card hsub
  have := dir.toFinset_card_le
  omega

/-- Claim C1: the conflict-resolution loop first proposes `stem + ext`; if a
file of that exact name exists in the directory it proposes `stem_2`,
`stem_3`, ... and returns the first name not present; in particular the
returned name is never the name of an existing file at check time, and in a
directory containing `stem + ext` (but not `stem_2 + ext`) the result is
`stem_2 + ext`. -/
theorem findUniqueFilename_spec (stem ext : Str) (dir : List Str) :
    findUniqueFilename stem ext dir ∉ dir
    ∧ (stem ++ ext ∉ dir → findUniqueFilename stem ext dir = stem ++ ext)
    ∧ (stem ++ ext ∈ dir → conflictCandidate stem ext 2 ∉ dir →
        findUniqueFilename stem ext dir = conflictCandidate stem ext 2) := by
  refine ⟨?_, ?_, ?_⟩
  · exact findUniqueFromT_not_mem stem ext dir _ 1 (conflictCandidate_exists_free stem ext dir)
  · intro h1
    unfold findUniqueFilename
    simp only [findUniqueFromT]
    rw [if_neg (show conflictCandidate stem ext 1 ∈ dir → False by
      intro hc
      rw [conflictCandidate, if_pos rfl] at hc
      exact h1 hc)]
    rw [conflictCandidate, if_pos rfl]
  · intro h1 h2
    unfold findUniqueFilename
    have hlen : 1 ≤ dir.length := List.length_pos.mpr (List.ne_nil_of_mem h1)
    obtain ⟨m, hm⟩ : ∃ m, dir.length = m + 1 := ⟨dir.length - 1, by omega⟩
    rw [hm]
    simp only [findUniqueFromT]
    rw [if_pos (show conflictCandidate stem ext 1 ∈ dir by
      rw [conflictCandidate, if_pos rfl]
      exact h1)]
    simp only [findUniqueFromT]
    rw [if_neg h2]

/-- Witness for C1: in a directory containing only `x.png`, synthesizing stem
`x` avoids the existing file and yields `x_2.png`; in an empty directory it
yields `x.png`. -/
theorem findUniqueFilename_spec_witness :
    findUniqueFilename (str "x") (str ".png") [str "x.png"] ∉ [str "x.png"]
    ∧ findUniqueFilename (str "x") (str ".png") [] = str "x" ++ str ".png"
    ∧ findUniqueFilename (str "x") (str ".png") [str "x.png"]
        = conflictCandidate (str "x") (str ".png") 2 :=
  ⟨(findUniqueFilename_spec (str "x") (str ".png") [str "x.png"]).1,
   (findUniqueFilename_spec (str "x") (str ".png") []).2.1 (by decide),
   (findUniqueFilename_spec (str "x") (str ".png") [str "x.png"]).2.2 (by decide) (by decide)⟩

/-! ### Already-processed classifier (`isAiProcessedFile`, batch renamer) -/

/-- JS `String.prototype.split('_')`: splits on every underscore, keeping
empty segments (`"a__b"` gives `["a", "", "b"]`, `""` gives `[""]`). -/
def splitOnUnd : Str → List Str
  | [] => [[]]
  | c :: cs =>
    match splitOnUnd cs with
    | [] => [[]]
    | p :: ps => if c = '_' then [] :: p :: ps else (c :: p) :: ps

/-- The generic terms excluded from "meaningful" parts. -/
def genericTerms : List Str :=
  [str "image", str "screenshot", str "img", str "pic", str "photo"]

/-- A part is meaningful when it has length at least 3, is not purely numeric
(JS `/^\d+$/`), and is not a generic term. -/
def isMeaningfulPart (p : Str) : Bool :=
  decide (3 ≤ p.length) && !(decide (0 < p.length) && p.all isJsDigit)
    && !(genericTerms.contains p)

/-- The already-processed classifier: split the lowercased stem on `_`; a
two-part `image`/`screenshot`/`img` + 13-digit-timestamp stem is explicitly
not processed; with 3 or more parts the stem is processed exactly when at
least 2 parts are meaningful; anything else is not processed. -/
def isAiProcessedFile (fileName : Str) : Bool :=
  let parts := splitOnUnd (fileName.map jsToLower)
  let genericTimestamp : Bool :=
    match parts with
    | [p0, p1] =>
      (p0 == str "image" || p0 == str "screenshot" || p0 == str "img")
        && p1.length == 13 && p1.all isJsDigit
    | _ => false
  if genericTimestamp then false
  else if 3 ≤ parts.length then decide (2 ≤ (parts.filter isMeaningfulPart).length)
  else false

/-- Claim C3: the classifier returns true exactly when the stem splits into 3
or more parts of which at least 2 are meaningful; every stem with fewer than
3 parts (including a generic term plus 13-digit timestamp) is classified not
processed; in particular `image_1718901015123` and
`screenshot_1718901015123` are not processed while
`login_screen_error_message` is. -/
theorem isAiProcessedFile_spec :
    (∀ s : Str, isAiProcessedFile s = true ↔
      (3 ≤ (splitOnUnd (s.map jsToLower)).length ∧
        2 ≤ ((splitOnUnd (s.map jsToLower)).filter isMeaningfulPart).length))
    ∧ isAiProcessedFile (str "image_1718901015123") = false
    ∧ isAiProcessedFile (str "screenshot_1718901015123") = false
    ∧ isAiProcessedFile (str "login_screen_error_message") = true := by
  refine ⟨?_, by decide, by decide, by decide⟩
  intro s
  simp only [isAiProcessedFile]
  generalize splitOnUnd (s.map jsToLower) = parts
  rcases parts with _ | ⟨p0, _ | ⟨p1, _ | ⟨p2, rest⟩⟩⟩
  · simp
  · simp
  · split
    · simp only [Bool.false_eq_true, false_iff]
      intro ⟨h3, _⟩
      simp at h3
    · split
      · rename_i hlen
        simp at hlen
      · simp only [Bool.false_eq_true, false_iff]
        intro ⟨h3, _⟩
        simp at h3
  · have hgt : (match p0 :: p1 :: p2 :: rest with
      | [p0, p1] =>
        (p0 == str "image" || p0 == str "screenshot" || p0 == str "img")
          && p1.length == 13 && p1.all isJsDigit
      | _ => false) = false := rfl
    rw [hgt]
    simp only [Bool.false_eq_true, if_false]
    rw [if_pos (by simp)]
    simp only [decide_eq_true_iff]
    constructor
    · intro h
      exact ⟨by simp, h⟩
    · intro h
      exact h.2

/-! ### Analyzer fallback (`ai-utils.js` `getFallbackName`,
`lmstudio-vision.js` `analyzeImage`) -/

/-- JS `String.prototype.includes`. -/
def containsSub (pat : Str) : Str → Bool
  | [] => pat.isEmpty
  | c :: cs => pat.isPrefixOf (c :: cs) || containsSub pat cs

/-- JS `String.prototype.trim` (whitespace at both ends). -/
def jsTrim (l : Str) : Str :=
  ((l.dropWhile isJsSpace).reverse.dropWhile isJsSpace).reverse

/-- `getFallbackName`: fallback names are the original basename's generic
class (`screenshot` when the lowercased basename contains it, else `image`)
plus the current epoch milliseconds. -/
def getFallbackName (basename : Str) (now : Nat) : Str :=
  if containsSub (str "screenshot") (basename.map jsToLower)
  then str "screenshot_" ++ natRepr now
  else str "image_" ++ natRepr now

/-- The possible outcomes of the single LM Studio chat-completions request
made by `analyzeImage` (every `catch`-able failure is a non-`ok` case). -/
inductive LMOutcome where
  | readError
  | fetchError
  | httpError (status : Nat)
  | badPayload
  | noChoices
  | ok (content : Str)

/-- `lmstudio-vision.js` `analyzeImage`: on a successful response the trimmed
content is cleaned; every failure path lands in the `catch` block and returns
`getFallbackName` — the function always returns a name, never an exception.
`basename` is the original file basename without extension and `now` the
epoch-millisecond clock reading. -/
def analyzeImage (basename : Str) (outcome : LMOutcome) (now : Nat) : Str :=
  match outcome with
  | .ok content => cleanFilename (jsTrim content)
  | _ => getFallbackName basename now

/-- Claim C4: on any failure (read error, network error, non-2xx status,
malformed payload, empty choices) `analyzeImage` returns, rather than raises,
the timestamped fallback `screenshot_<millis>` when the original basename
contains "screenshot" (case-insensitively), otherwise `image_<millis>`. -/
theorem analyzeImage_failure_fallback (basename : Str) (outcome : LMOutcome) (now : Nat)
    (h : ∀ content, outcome ≠ LMOutcome.ok content) :
    analyzeImage basename outcome now =
      (if containsSub (str "screenshot") (basename.map jsToLower)
       then str "screenshot_" ++ natRepr now
       else str "image_" ++ natRepr now) := by
  cases outcome with
  | ok content => exact absurd rfl (h content)
  | readError => rfl
  | fetchError => rfl
  | httpError status => rfl
  | badPayload => rfl
  | noChoices => rfl

/-- Witness for C4: a failing HTTP 500 analysis of
`Screenshot 2024-06-20 at 10.30.15` falls back to
`screenshot_1718901015123` at clock reading 1718901015123. -/
theorem analyzeImage_failure_fallback_witness :
    analyzeImage (str "Screenshot 2024-06-20 at 10.30.15")
        (LMOutcome.httpError 500) 1718901015123 = str "screenshot_1718901015123" :=
  (analyzeImage_failure_fallback (str "Screenshot 2024-06-20 at 10.30.15")
      (LMOutcome.httpError 500) 1718901015123
      (fun content h => LMOutcome.noConfusion h)).trans (by decide)

/-! ### Filename generation (`generateFileName` in `folder-watcher.js` and
`batch-renamer.js`) -/

/-- The degenerate-stem test of `generateFileName`:
`!fileName || fileName.length < 3 || fileName === 'image' || fileName === 'screenshot'`. -/
def isDegenerateStem (s : Str) : Bool :=
  s.isEmpty || decide (s.length < 3) || s == str "image" || s == str "screenshot"

theorem isDegenerateStem_iff (s : Str) :
    isDegenerateStem s = true ↔
      (s = [] ∨ s.length < 3 ∨ s = str "image" ∨ s = str "screenshot") := by
  simp [isDegenerateStem, List.isEmpty_iff, or_assoc]

/-- `generateFileName`: clean the analysis text; a degenerate stem gets a
timestamp-based name immediately, otherwise the conflict-resolution loop runs
against the target directory. The second component is the list of names whose
existence on disk was checked (one `fs.promises.access` per entry). -/
def generateFileName (analysis extension : Str) (dir : List Str) (now : Nat) :
    Str × List Str :=
  let fileName := cleanStem analysis
  if isDegenerateStem fileName then
    ((if fileName.isEmpty then str "image" else fileName)
      ++ '_' :: (natRepr now ++ extension), [])
  else findUniqueFromT fileName extension dir 1 (dir.length + 1)

theorem findUniqueFromT_checks_ne_nil (stem ext : Str) (dir : List Str)
    (counter fuel : Nat) :
    (findUniqueFromT stem ext dir counter (fuel + 1)).2 ≠ [] := by
  simp only [findUniqueFromT]
  split
  · simp
  · simp

/-- Claim C10: for a degenerate cleaned stem (empty, shorter than 3
characters, or exactly "image"/"screenshot") `generateFileName` returns
`<stem-or-"image">_<epochMillis><ext>` immediately with no existence check
against the target directory, unlike the non-degenerate path which always
performs at least one existence check. -/
theorem generateFileName_degenerate_skips_conflict
    (analysis extension : Str) (dir : List Str) (now : Nat) :
    ((cleanStem analysis = [] ∨ (cleanStem analysis).length < 3 ∨
        cleanStem analysis = str "image" ∨ cleanStem analysis = str "screenshot") →
      generateFileName analysis extension dir now =
        ((if cleanStem analysis = [] then str "image" else cleanStem analysis)
          ++ '_' :: (natRepr now ++ extension), []))
    ∧ (¬(cleanStem analysis = [] ∨ (cleanStem analysis).length < 3 ∨
        cleanStem analysis = str "image" ∨ cleanStem analysis = str "screenshot") →
      (generateFileName analysis extension dir now).2 ≠ []) := by
  constructor
  · intro hdeg
    unfold generateFileName
    rw [if_pos ((isDegenerateStem_iff _).mpr hdeg)]
    rcases Decidable.em (cleanStem analysis = []) with he | he
    · rw [if_pos he, if_pos (List.isEmpty_iff.mpr he)]
    · rw [if_neg he, if_neg (fun h => he (List.isEmpty_iff.mp h))]
  · intro hdeg
    unfold generateFileName
    rw [if_neg (fun h => hdeg ((isDegenerateStem_iff _).mp h))]
    exact findUniqueFromT_checks_ne_nil _ _ _ _ _

/-- Witness for C10: the analysis `hi!` cleans to the two-character stem `hi`,
so the generated name is `hi_1718901015123.png` with zero existence checks
even though the directory is non-empty; the analysis `login screen` cleans to
a non-degenerate stem and performs at least one existence check. -/
theorem generateFileName_degenerate_skips_conflict_witness :
    generateFileName (str "hi!") (str ".png") [str "hi_2.png"] 1718901015123
        = ((if cleanStem (str "hi!") = [] then str "image" else cleanStem (str "hi!"))
            ++ '_' :: (natRepr 1718901015123 ++ str ".png"), [])
    ∧ (generateFileName (str "login screen") (str ".png") [] 1718901015123).2 ≠ [] :=
  ⟨(generateFileName_degenerate_skips_conflict (str "hi!") (str ".png")
      [str "hi_2.png"] 1718901015123).1 (by decide),
   (generateFileName_degenerate_skips_conflict (str "login screen") (str ".png")
      [] 1718901015123).2 (by decide)⟩

/-! ### Logging model

Levels of the structured logging sink; tags identify the individual
`logger.*` / caught-error call sites that the claims reason about. -/

inductive LogLevel where
  | debug
  | info
  | warn
  | error
deriving DecidableEq

/-- The clipboard write strategies, in the priority order of
`clipboard-manager.js` (`copyMethods` in the constructor). -/
inductive CopyMethod where
  | swiftHelper
  | appleScript
  | pbcopy
deriving DecidableEq

inductive LogTag where
  | fileDetected
  | skipNonImage
  | skipProcessed
  | alreadyProcessing
  | fileGone
  | newImage
  | analysisStarted
  | analysisFailed
  | analysisSucceeded
  | renameAttempt
  | renamed
  | copyingToClipboard
  | clipboardDone
  | renameCatch
  | samePath
  | attemptingMethod (m : CopyMethod)
  | methodFailed (m : CopyMethod)
  | clipboardCopied (m : CopyMethod)
  | allMethodsFailed
  | clipboardCopiedBatch
  | clipboardCopyFailed
  | renameError
  | skippedNoChange
deriving DecidableEq

/-- A leveled structured log event. -/
abbrev LogEvent := LogLevel × LogTag

/-! ### Clipboard publication chain (`clipboard-manager.js`) -/

/-- The fixed priority order: Swift helper, AppleScript, pbcopy. -/
def copyMethods : List CopyMethod :=
  [CopyMethod.swiftHelper, CopyMethod.appleScript, CopyMethod.pbcopy]

/-- Result of a clipboard publication: the strategy that succeeded (`none`
when the chain was exhausted and `copyImageToClipboard` threw), the
strategies invoked, and the emitted log events. -/
structure ClipResult where
  success : Option CopyMethod
  invoked : List CopyMethod
  logs : List LogEvent
deriving DecidableEq

/-- The strategy loop of `copyImageToClipboard`: try each method in order,
return on the first success; each failure is logged at debug level; after
exhausting the list an error is logged and the error is thrown. Each
strategy catches its own internal errors and reports plain success/failure
(`outcome`). -/
def copyChain (outcome : CopyMethod → Bool) : List CopyMethod → ClipResult
  | [] =>
    { success := none, invoked := [],
      logs := [(LogLevel.error, LogTag.allMethodsFailed)] }
  | m :: ms =>
    if outcome m then
      { success := some m, invoked := [m],
        logs := [(LogLevel.debug, LogTag.attemptingMethod m),
                 (LogLevel.info, LogTag.clipboardCopied m)] }
    else
      let r := copyChain outcome ms
      { success := r.success, invoked := m :: r.invoked,
        logs := (LogLevel.debug, LogTag.attemptingMethod m)
          :: (LogLevel.debug, LogTag.methodFailed m) :: r.logs }

/-- `copyImageToClipboard`, for an existing image on macOS: run the chain
over the three configured strategies. -/
def copyImageToClipboard (outcome : CopyMethod → Bool) : ClipResult :=
  copyChain outcome copyMethods

theorem copyChain_spec (outcome : CopyMethod → Bool) :
    ∀ ms : List CopyMethod,
      ((copyChain outcome ms).success = none ↔ ∀ m ∈ ms, outcome m = false)
      ∧ List.IsPrefix (copyChain outcome ms).invoked ms
      ∧ ∀ m, (copyChain outcome ms).success = some m →
          outcome m = true
          ∧ (copyChain outcome ms).invoked.getLast? = some m
          ∧ ∀ m' ∈ (copyChain outcome ms).invoked, m' ≠ m → outcome m' = false := by
  intro ms
  induction ms with
  | nil =>
    refine ⟨by simp [copyChain], by simp [copyChain], ?_⟩
    intro m h
    simp [copyChain] at h
  | cons m ms ih =>
    by_cases hm : outcome m = true
    · refine ⟨?_, ?_, ?_⟩
      · simp [copyChain, hm]
      · simp only [copyChain, if_pos hm]
        exact ⟨ms, rfl⟩
      · intro m' hs
        simp only [copyChain, if_pos hm, Option.some.injEq] at hs
        subst hs
        refine ⟨hm, by simp [copyChain, if_pos hm], ?_⟩
        intro m'' hmem hne
        simp only [copyChain, if_pos hm, List.mem_singleton] at hmem
        exact absurd hmem hne
    · have hm' : outcome m = false := by
        cases h : outcome m
        · rfl
        · exact absurd h hm
      refine ⟨?_, ?_, ?_⟩
      · simp only [copyChain, if_neg hm]
        rw [ih.1]
        constructor
        · intro h x hx
          rcases List.mem_cons.mp hx with h' | h'
          · rw [h']
            exact hm'
          · exact h x h'
        · intro h x hx
          exact h x (List.mem_cons_of_mem _ hx)
      · simp only [copyChain, if_neg hm]
        exact List.cons_prefix_cons.mpr ⟨rfl, ih.2.1⟩
      · intro x hs
        simp only [copyChain, if_neg hm] at hs
        obtain ⟨hout, hlast, hall⟩ := ih.2.2 x hs
        have hne : (copyChain outcome ms).invoked ≠ [] := by
          intro hnil
          rw [hnil] at hlast
          simp at hlast
        refine ⟨hout, ?_, ?_⟩
        · simp only [copyChain, if_neg hm]
          obtain ⟨y, ys, hys⟩ := List.exists_cons_of_ne_nil hne
          rw [hys] at hlast ⊢
          rwa [List.getLast?_cons_cons]
        · intro m'' hmem hne''
          simp only [copyChain, if_neg hm, List.mem_cons] at hmem
          rcases hmem with h' | h'
          · rw [h']
            exact hm'
          · exact hall m'' h' hne''

/-- Claim C6: the three clipboard write strategies are attempted in the fixed
priority order (the invoked strategies are always a prefix of
`copyMethods`), the chain short-circuits on the first success (the
successful strategy is the last one invoked and every other invoked strategy
failed), and failure is surfaced to the caller exactly when all three
strategies failed. -/
theorem copyImageToClipboard_priority_chain (outcome : CopyMethod → Bool) :
    List.IsPrefix (copyImageToClipboard outcome).invoked copyMethods
    ∧ ((copyImageToClipboard outcome).success = none ↔
        ∀ m ∈ copyMethods, outcome m = false)
    ∧ ∀ m, (copyImageToClipboard outcome).success = some m →
        outcome m = true
        ∧ (copyImageToClipboard outcome).invoked.getLast? = some m
        ∧ ∀ m' ∈ (copyImageToClipboard outcome).invoked, m' ≠ m → outcome m' = false :=
  ⟨(copyChain_spec outcome copyMethods).2.1,
   (copyChain_spec outcome copyMethods).1,
   (copyChain_spec outcome copyMethods).2.2⟩

/-- An outcome assignment in which the first two strategies fail and the
third succeeds. -/
def pbcopyOnlyOutcome : CopyMethod → Bool
  | CopyMethod.pbcopy => true
  | _ => false

/-- Witness for C6: with the first two strategies failing and pbcopy
succeeding, the publication succeeds using pbcopy, pbcopy is last in the
invocation order, and no strategy beyond it was invoked. -/
theorem copyImageToClipboard_priority_chain_witness :
    pbcopyOnlyOutcome CopyMethod.pbcopy = true
    ∧ (copyImageToClipboard pbcopyOnlyOutcome).invoked.getLast? = some CopyMethod.pbcopy
    ∧ ∀ m' ∈ (copyImageToClipboard pbcopyOnlyOutcome).invoked,
        m' ≠ CopyMethod.pbcopy → pbcopyOnlyOutcome m' = false :=
  (copyImageToClipboard_priority_chain pbcopyOnlyOutcome).2.2 CopyMethod.pbcopy (by decide)

/-! ### Folder watcher (`folder-watcher.js` `handleNewFile`) -/

/-- Node `path.extname` restricted to a basename: the suffix from the last
dot, except that a dot in first position (hidden file) or no dot yields the
empty extension. -/
def extnameOf (name : Str) : Str :=
  let afterDot := name.reverse.takeWhile (fun c => c ≠ '.')
  if afterDot.length = name.length then []
  else if afterDot.length + 1 = name.length then []
  else '.' :: afterDot.reverse

/-- Node `path.basename(name, ext)`: strip `ext` when it is a proper suffix. -/
def basenameMinus (name ext : Str) : Str :=
  if !ext.isEmpty && ext.isSuffixOf name && decide (ext.length < name.length)
  then name.take (name.length - ext.length)
  else name

/-- The watcher's accepted image extensions. -/
def imageExtensions : List Str :=
  [str ".png", str ".jpg", str ".jpeg", str ".gif", str ".webp"]

/-- JS regex `/^[a-z_]+(_\d+)?$/` (the folder watcher's already-processed
name pattern): one or more lowercase letters or underscores, optionally
followed by an underscore and a digit suffix. A digit suffix can only be the
maximal trailing digit run, which grounds this executable match. -/
def matchesProcessedRegex (l : Str) : Bool :=
  let isLU := fun c => decide (97 ≤ c.toNat ∧ c.toNat ≤ 122) || decide (c.toNat = 95)
  if l.all isLU then !l.isEmpty
  else
    let ds := l.reverse.takeWhile isJsDigit
    let former := (l.reverse.drop ds.length).reverse
    !ds.isEmpty &&
      (match former.getLast? with
       | some c =>
         c == '_' && (!former.dropLast.isEmpty && former.dropLast.all isLU)
       | none => false)

/-- JS `Set.prototype.add` on the in-flight path set. -/
def setAdd (l : List Str) (x : Str) : List Str := if x ∈ l then l else x :: l

/-- The per-invocation inputs of `handleNewFile` that come from the outside
world: whether the file still exists after the debounce, the analyzer's
result (`none` models a null result), the watch-folder listing, the clock,
the clipboard configuration and strategy outcomes, and whether the rename
syscall succeeds. -/
structure FwEnv where
  stillExists : Bool
  analysis : Option Str
  dir : List Str
  now : Nat
  copyToClipboard : Bool
  clipOutcome : CopyMethod → Bool
  renameOk : Bool

/-- Observable outcome of one `handleNewFile` invocation: the in-flight set
afterwards, whether the analyzer was invoked, the folder listing afterwards,
the name the file bears afterwards (`none` when untouched or renamed away
unsuccessfully), and the log events emitted by the handler and the clipboard
manager. The internal diagnostics of `generateFileName` (debug traces, and
warnings on conflict bumps or degenerate stems) are not tracked here. -/
structure FwOut where
  processing : List Str
  analyzerCalled : Bool
  names : List Str
  finalName : Option Str
  logs : List LogEvent

/-- `handleNewFile`, one invocation run atomically. The `finally` block
(`processingFiles.delete(filePath)`) wraps the whole body, so every exit
path — including the early skip returns — erases the path from the in-flight
set. -/
def handleNewFile (processing : List Str) (filePath : Str) (env : FwEnv) : FwOut :=
  let ext := (extnameOf filePath).map jsToLower
  let fileName := basenameMinus filePath ext
  if ext ∉ imageExtensions then
    { processing := processing.erase filePath, analyzerCalled := false,
      names := env.dir, finalName := none,
      logs := [(LogLevel.info, LogTag.fileDetected), (LogLevel.debug, LogTag.skipNonImage)] }
  else if fileName.contains '_' && matchesProcessedRegex fileName then
    { processing := processing.erase filePath, analyzerCalled := false,
      names := env.dir, finalName := none,
      logs := [(LogLevel.info, LogTag.fileDetected), (LogLevel.info, LogTag.skipProcessed)] }
  else if filePath ∈ processing then
    { processing := processing.erase filePath, analyzerCalled := false,
      names := env.dir, finalName := none,
      logs := [(LogLevel.info, LogTag.fileDetected), (LogLevel.warn, LogTag.alreadyProcessing)] }
  else
    let processing1 := setAdd processing filePath
    if env.stillExists = false then
      { processing := processing1.erase filePath, analyzerCalled := false,
        names := env.dir, finalName := none,
        logs := [(LogLevel.info, LogTag.fileDetected), (LogLevel.warn, LogTag.fileGone)] }
    else
      match env.analysis with
      | none =>
        { processing := processing1.erase filePath, analyzerCalled := true,
          names := env.dir, finalName := none,
          logs := [(LogLevel.info, LogTag.fileDetected), (LogLevel.info, LogTag.newImage),
                   (LogLevel.info, LogTag.analysisStarted), (LogLevel.error, LogTag.analysisFailed)] }
      | some analysis =>
        let base := [(LogLevel.info, LogTag.fileDetected), (LogLevel.info, LogTag.newImage),
                     (LogLevel.info, LogTag.analysisStarted), (LogLevel.info, LogTag.analysisSucceeded)]
        let newFileName := (generateFileName analysis ext env.dir env.now).1
        if filePath = newFileName then
          { processing := processing1.erase filePath, analyzerCalled := true,
            names := env.dir, finalName := some filePath,
            logs := base ++ [(LogLevel.warn, LogTag.samePath)] }
        else if env.renameOk then
          let names1 := env.dir.erase filePath ++ [newFileName]
          if env.copyToClipboard then
            let clip := copyImageToClipboard env.clipOutcome
            match clip.success with
            | some _ =>
              { processing := processing1.erase filePath, analyzerCalled := true,
                names := names1, finalName := some newFileName,
                logs := base ++ (LogLevel.info, LogTag.renameAttempt)
                  :: (LogLevel.info, LogTag.renamed)
                  :: (LogLevel.info, LogTag.copyingToClipboard)
                  :: (clip.logs ++ [(LogLevel.info, LogTag.clipboardDone)]) }
            | none =>
              { processing := processing1.erase filePath, analyzerCalled := true,
                names := names1, finalName := some newFileName,
                logs := base ++ (LogLevel.info, LogTag.renameAttempt)
                  :: (LogLevel.info, LogTag.renamed)
                  :: (LogLevel.info, LogTag.copyingToClipboard)
                  :: (clip.logs ++ [(LogLevel.error, LogTag.renameCatch)]) }
          else
            { processing := processing1.erase filePath, analyzerCalled := true,
              names := names1, finalName := some newFileName,
              logs := base ++ [(LogLevel.info, LogTag.renameAttempt), (LogLevel.info, LogTag.renamed)] }
        else
          { processing := processing1.erase filePath, analyzerCalled := true,
            names := env.dir, finalName := none,
            logs := base ++ [(LogLevel.info, LogTag.renameAttempt), (LogLevel.error, LogTag.renameCatch)] }

/-- Within a single invocation, the guard and the cleanup behave as coded:
the resulting in-flight set is always the input set with the path erased, and
an event for a path already marked in-flight never reaches the analyzer. -/
theorem handleNewFile_guard_cleanup (processing : List Str) (filePath : Str) (env : FwEnv) :
    (handleNewFile processing filePath env).processing = processing.erase filePath
    ∧ (filePath ∈ processing → (handleNewFile processing filePath env).analyzerCalled = false) := by
  constructor
  · unfold handleNewFile
    dsimp only
    split
    · rfl
    · split
      · rfl
      · split
        · rfl
        · rename_i hnot
          have hmem : filePath ∉ processing := hnot
          have hadd : (setAdd processing filePath).erase filePath = processing.erase filePath := by
            unfold setAdd
            rw [if_neg hmem, List.erase_cons_head, List.erase_of_not_mem hmem]
          repeat' split
          all_goals exact hadd
  · intro hin
    unfold handleNewFile
    dsimp only
    split
    · rfl
    · split
      · rfl
      · rfl

/-- The prefix of `handleNewFile` up to its first suspension point (the
debounce `await`), together with the effect of the `finally` block on the
early-return paths: extension filter, already-processed filter, in-flight
guard, then marking. An invocation that passes the guard stays suspended
with the path marked; an invocation that returns early runs its `finally`
and erases the path — even when the mark belongs to another invocation. -/
inductive Phase1Result where
  | skippedNonImage
  | skippedProcessed
  | skippedInFlight
  | proceed
deriving DecidableEq

def fwPhase1 (processing : List Str) (filePath : Str) : List Str × Phase1Result :=
  let ext := (extnameOf filePath).map jsToLower
  let fileName := basenameMinus filePath ext
  if ext ∉ imageExtensions then
    (processing.erase filePath, Phase1Result.skippedNonImage)
  else if fileName.contains '_' && matchesProcessedRegex fileName then
    (processing.erase filePath, Phase1Result.skippedProcessed)
  else if filePath ∈ processing then
    (processing.erase filePath, Phase1Result.skippedInFlight)
  else
    (setAdd processing filePath, Phase1Result.proceed)

/-- Claim C5, code-bug exhibit: three rapid `add` events for
`Shot 1.png`. The first passes the guard (marks the path and suspends at the
debounce). The second is skipped by the in-flight guard, but its `finally`
erases the first invocation's mark from the set. The third then passes the
guard while the first invocation is still running — the path is owned by two
pipeline invocations at once, violating the at-most-one-ownership claim. -/
theorem inflight_ownership_violated_by_duplicate_events :
    (fwPhase1 [] (str "Shot 1.png")).2 = Phase1Result.proceed
    ∧ (fwPhase1 (fwPhase1 [] (str "Shot 1.png")).1 (str "Shot 1.png")).2
        = Phase1Result.skippedInFlight
    ∧ (fwPhase1 (fwPhase1 [] (str "Shot 1.png")).1 (str "Shot 1.png")).1 = []
    ∧ (fwPhase1 (fwPhase1 (fwPhase1 [] (str "Shot 1.png")).1 (str "Shot 1.png")).1
        (str "Shot 1.png")).2 = Phase1Result.proceed := by
  decide

/-! ### Batch renamer per-file tail (`batch-renamer.js` `processFolder`,
rename and clipboard step) -/

/-- After a successful analysis, `processFolder` renames the file and, when
clipboard copying is enabled, wraps the clipboard call in its own
`try`/`catch` that logs a warning and continues. Returns the folder listing
afterwards, the name the file bears, and the log events. -/
def brRenameAndClipboard (names : List Str) (filePath newFileName : Str)
    (renameOk copyToClipboard : Bool) (outcome : CopyMethod → Bool) :
    List Str × Option Str × List LogEvent :=
  if filePath = newFileName then
    (names, some filePath, [(LogLevel.info, LogTag.skippedNoChange)])
  else if renameOk then
    let names1 := names.erase filePath ++ [newFileName]
    if copyToClipboard then
      let clip := copyImageToClipboard outcome
      match clip.success with
      | some _ =>
        (names1, some newFileName,
          (LogLevel.info, LogTag.renamed)
            :: (clip.logs ++ [(LogLevel.info, LogTag.clipboardCopiedBatch)]))
      | none =>
        (names1, some newFileName,
          (LogLevel.info, LogTag.renamed)
            :: (clip.logs ++ [(LogLevel.warn, LogTag.clipboardCopyFailed)]))
    else (names1, some newFileName, [(LogLevel.info, LogTag.renamed)])
  else (names, none, [(LogLevel.error, LogTag.renameError)])

theorem copyChain_none_error_mem (outcome : CopyMethod → Bool) :
    ∀ ms : List CopyMethod, (copyChain outcome ms).success = none →
      (LogLevel.error, LogTag.allMethodsFailed) ∈ (copyChain outcome ms).logs := by
  intro ms
  induction ms with
  | nil =>
    intro _
    simp [copyChain]
  | cons m ms ih =>
    intro h
    by_cases hm : outcome m = true
    · simp [copyChain, hm] at h
    · have hm' : outcome m = false := by
        cases hx : outcome m
        · rfl
        · exact absurd hx hm
      simp only [copyChain, if_neg hm] at h ⊢
      exact List.mem_cons_of_mem _ (List.mem_cons_of_mem _ (ih h))

theorem copyChain_no_warn (outcome : CopyMethod → Bool) :
    ∀ ms : List CopyMethod, ∀ e ∈ (copyChain outcome ms).logs, e.1 ≠ LogLevel.warn := by
  intro ms
  induction ms with
  | nil =>
    intro e he
    simp [copyChain] at he
    rw [he]
    decide
  | cons m ms ih =>
    intro e he
    by_cases hm : outcome m = true
    · simp only [copyChain, if_pos hm] at he
      rcases List.mem_cons.mp he with h | h
      · rw [h]
        simp
      · rcases List.mem_cons.mp h with h' | h'
        · rw [h']
          simp
        · simp at h'
    · simp only [copyChain, if_neg hm] at he
      rcases List.mem_cons.mp he with h | h
      · rw [h]
        simp
      · rcases List.mem_cons.mp h with h' | h'
        · rw [h']
          simp
        · exact ih e h'

/-- Claim C9, amended: when all three clipboard strategies fail after a
completed rename, the clipboard manager logs the exhaustion at error level
and throws; the batch pipeline catches the error and additionally logs a
warning, while the folder-watcher pipeline catches it in its rename error
handler and logs at error level with no warning-level clipboard report; in
both pipelines the completed rename stays in place — the file keeps its new
name and the rename is not undone. -/
theorem clipboard_exhaustion_rename_stands
    (processing : List Str) (filePath : Str) (env : FwEnv) (a : Str)
    (names : List Str) (bFile bNew : Str) (outcome : CopyMethod → Bool)
    (hext : (extnameOf filePath).map jsToLower ∈ imageExtensions)
    (hproc : ((basenameMinus filePath ((extnameOf filePath).map jsToLower)).contains '_'
        && matchesProcessedRegex (basenameMinus filePath ((extnameOf filePath).map jsToLower))) = false)
    (hnotin : filePath ∉ processing)
    (hstill : env.stillExists = true)
    (hana : env.analysis = some a)
    (hne : filePath ≠ (generateFileName a ((extnameOf filePath).map jsToLower) env.dir env.now).1)
    (hrok : env.renameOk = true)
    (hclipOn : env.copyToClipboard = true)
    (hfail : ∀ m, env.clipOutcome m = false)
    (hbne : bFile ≠ bNew)
    (hbfail : ∀ m, outcome m = false) :
    ((handleNewFile processing filePath env).finalName
        = some (generateFileName a ((extnameOf filePath).map jsToLower) env.dir env.now).1
      ∧ (generateFileName a ((extnameOf filePath).map jsToLower) env.dir env.now).1
          ∈ (handleNewFile processing filePath env).names
      ∧ (LogLevel.error, LogTag.allMethodsFailed) ∈ (handleNewFile processing filePath env).logs
      ∧ (LogLevel.warn, LogTag.clipboardCopyFailed) ∉ (handleNewFile processing filePath env).logs)
    ∧ ((brRenameAndClipboard names bFile bNew true true outcome).2.1 = some bNew
      ∧ bNew ∈ (brRenameAndClipboard names bFile bNew true true outcome).1
      ∧ (LogLevel.warn, LogTag.clipboardCopyFailed)
          ∈ (brRenameAndClipboard names bFile bNew true true outcome).2.2) := by
  have hnone : (copyImageToClipboard env.clipOutcome).success = none :=
    (copyChain_spec env.clipOutcome copyMethods).1.mpr (fun m _ => hfail m)
  have hbnone : (copyImageToClipboard outcome).success = none :=
    (copyChain_spec outcome copyMethods).1.mpr (fun m _ => hbfail m)
  constructor
  · have hred : handleNewFile processing filePath env =
        { processing := (setAdd processing filePath).erase filePath, analyzerCalled := true,
          names := env.dir.erase filePath
            ++ [(generateFileName a ((extnameOf filePath).map jsToLower) env.dir env.now).1],
          finalName := some (generateFileName a ((extnameOf filePath).map jsToLower) env.dir env.now).1,
          logs := [(LogLevel.info, LogTag.fileDetected), (LogLevel.info, LogTag.newImage),
                   (LogLevel.info, LogTag.analysisStarted), (LogLevel.info, LogTag.analysisSucceeded)]
            ++ (LogLevel.info, LogTag.renameAttempt)
              :: (LogLevel.info, LogTag.renamed)
              :: (LogLevel.info, LogTag.copyingToClipboard)
              :: ((copyImageToClipboard env.clipOutcome).logs
                  ++ [(LogLevel.error, LogTag.renameCatch)]) } := by
      unfold handleNewFile
      dsimp only
      rw [if_neg (not_not_intro hext), if_neg (by rw [hproc]; simp), if_neg hnotin,
        hstill, if_neg (by simp), hana]
      dsimp only
      rw [if_neg hne, hrok, if_pos rfl, hclipOn, if_pos rfl]
      rcases hs : (copyImageToClipboard env.clipOutcome).success with _ | m
      · rfl
      · rw [hs] at hnone
        cases hnone
    rw [hred]
    refine ⟨rfl, ?_, ?_, ?_⟩
    · exact List.mem_append_right _ (List.mem_singleton.mpr rfl)
    · apply List.mem_append_right
      apply List.mem_cons_of_mem
      apply List.mem_cons_of_mem
      apply List.mem_cons_of_mem
      exact List.mem_append_left _ (copyChain_none_error_mem env.clipOutcome copyMethods hnone)
    · intro hmem
      simp only [List.mem_append, List.mem_cons, List.mem_singleton] at hmem
      rcases hmem with ((h | h) | h | h) | h | h | h | h | h
      all_goals first
        | (exact absurd h (by decide))
        | (exact copyChain_no_warn env.clipOutcome copyMethods _ h rfl)
  · unfold brRenameAndClipboard
    rw [if_neg hbne, if_pos rfl, if_pos rfl]
    dsimp only
    rcases hs : (copyImageToClipboard outcome).success with _ | m
    · refine ⟨rfl, ?_, ?_⟩
      · exact List.mem_append_right _ (List.mem_singleton.mpr rfl)
      · apply List.mem_cons_of_mem
        exact List.mem_append_right _ (List.mem_singleton.mpr rfl)
    · rw [hs] at hbnone
      cases hbnone

/-- An outcome assignment under which every strategy fails. -/
def allFailOutcome : CopyMethod → Bool := fun _ => false

/-- An environment for the folder watcher in which the file still exists,
analysis returns `login screen`, the rename succeeds, and every clipboard
strategy fails. -/
def fwClipFailEnv : FwEnv :=
  { stillExists := true, analysis := some (str "login screen"),
    dir := [str "Shot 1.png"], now := 1718901015123,
    copyToClipboard := true, clipOutcome := allFailOutcome, renameOk := true }

/-- Counterexample for C9 as stated: in the folder-watcher pipeline, a run
whose rename completed and whose clipboard publication exhausted all three
strategies reports the failure at error level (the clipboard manager's
exhaustion log and the watcher's catch handler) and emits no warning-level
event at all — the claimed warning-level degradation report does not exist
there; the rename nevertheless stands. -/
theorem clipboard_exhaustion_not_warning_in_watcher :
    (handleNewFile [] (str "Shot 1.png") fwClipFailEnv).finalName
        = some (str "login_screen.png")
    ∧ (handleNewFile [] (str "Shot 1.png") fwClipFailEnv).names
        = [str "login_screen.png"]
    ∧ (LogLevel.error, LogTag.allMethodsFailed)
        ∈ (handleNewFile [] (str "Shot 1.png") fwClipFailEnv).logs
    ∧ (LogLevel.error, LogTag.renameCatch)
        ∈ (handleNewFile [] (str "Shot 1.png") fwClipFailEnv).logs
    ∧ ∀ e ∈ (handleNewFile [] (str "Shot 1.png") fwClipFailEnv).logs,
        e.1 ≠ LogLevel.warn := by
  decide

/-- Witness for the amended C9: concrete runs of both pipelines with every
clipboard strategy failing. -/
theorem clipboard_exhaustion_rename_stands_witness :
    ((handleNewFile [] (str "Pic 7.png") fwClipFailEnv).finalName
        = some (generateFileName (str "login screen")
            ((extnameOf (str "Pic 7.png")).map jsToLower) fwClipFailEnv.dir fwClipFailEnv.now).1
      ∧ (generateFileName (str "login screen")
            ((extnameOf (str "Pic 7.png")).map jsToLower) fwClipFailEnv.dir fwClipFailEnv.now).1
          ∈ (handleNewFile [] (str "Pic 7.png") fwClipFailEnv).names
      ∧ (LogLevel.error, LogTag.allMethodsFailed)
          ∈ (handleNewFile [] (str "Pic 7.png") fwClipFailEnv).logs
      ∧ (LogLevel.warn, LogTag.clipboardCopyFailed)
          ∉ (handleNewFile [] (str "Pic 7.png") fwClipFailEnv).logs)
    ∧ ((brRenameAndClipboard [str "a.png"] (str "a.png") (str "b.png") true true allFailOutcome).2.1
          = some (str "b.png")
      ∧ str "b.png" ∈ (brRenameAndClipboard [str "a.png"] (str "a.png") (str "b.png") true true allFailOutcome).1
      ∧ (LogLevel.warn, LogTag.clipboardCopyFailed)
          ∈ (brRenameAndClipboard [str "a.png"] (str "a.png") (str "b.png") true true allFailOutcome).2.2) :=
  clipboard_exhaustion_rename_stands [] (str "Pic 7.png") fwClipFailEnv (str "login screen")
    [str "a.png"] (str "a.png") (str "b.png") allFailOutcome
    (by decide) (by decide) (by decide) rfl rfl (by decide) rfl rfl
    (fun m => rfl) (by decide) (fun m => rfl)

/-! ### Network security helper (`network-security.js`)

`NetworkSecurity` defines per-provider timeouts and retry limits and a
`secureRequest` wrapper; no analyzer imports it — the analyzers issue their
requests directly (`lmstudio-vision.js` performs a single `fetch` with no
timeout and no retry). -/

inductive Provider where
  | gemini
  | lmstudio
deriving DecidableEq

/-- `this.requestTimeouts` (milliseconds). -/
def requestTimeouts : Provider → Nat
  | Provider.gemini => 30000
  | Provider.lmstudio => 60000

/-- `this.retryLimits` (the loop bound `maxRetries`, i.e. total attempts). -/
def retryLimits : Provider → Nat
  | Provider.gemini => 3
  | Provider.lmstudio => 2

/-- What one attempt of `makeRequest` can produce: a response with its `ok`
flag and status, or a thrown error optionally carrying a `status` field. -/
inductive AttemptResult where
  | respond (ok : Bool) (status : Nat)
  | thrown (status : Option Nat)

inductive SecOutcome where
  | returned (status : Nat)
  | raised (errStatus : Option Nat)
deriving DecidableEq

/-- Result of `secureRequest`: what reaches the caller, how many attempts
were made, and the backoff delays slept between attempts. -/
structure SecResult where
  outcome : SecOutcome
  attempts : Nat
  delays : List Nat
deriving DecidableEq

/-- The exponential backoff of `secureRequest`:
`Math.min(1000 * Math.pow(2, attempt - 1), 10000)`. -/
def backoffDelay (attempt : Nat) : Nat := min (1000 * 2 ^ (attempt - 1)) 10000

/-- The retry loop of `secureRequest`: up to `fuel` further attempts. A
non-ok response with a 5xx status becomes a thrown error without a status
field (hence retried); any other response is returned (4xx responses are
returned to the caller, not retried); a thrown error with a 4xx status field
is rethrown immediately; all other errors are retried after the backoff
delay until the attempt budget is exhausted. -/
def secLoop (out : Nat → AttemptResult) : Nat → Nat → SecResult
  | 0, _ => { outcome := SecOutcome.raised none, attempts := 0, delays := [] }
  | fuel + 1, attempt =>
    match out attempt with
    | AttemptResult.respond ok status =>
      if !ok && decide (500 ≤ status) then
        if fuel = 0 then
          { outcome := SecOutcome.raised none, attempts := 1, delays := [] }
        else
          let r := secLoop out fuel (attempt + 1)
          { outcome := r.outcome, attempts := r.attempts + 1,
            delays := backoffDelay attempt :: r.delays }
      else { outcome := SecOutcome.returned status, attempts := 1, delays := [] }
    | AttemptResult.thrown st =>
      match st with
      | some sc =>
        if decide (400 ≤ sc) && decide (sc < 500) then
          { outcome := SecOutcome.raised (some sc), attempts := 1, delays := [] }
        else if fuel = 0 then
          { outcome := SecOutcome.raised (some sc), attempts := 1, delays := [] }
        else
          let r := secLoop out fuel (attempt + 1)
          { outcome := r.outcome, attempts := r.attempts + 1,
            delays := backoffDelay attempt :: r.delays }
      | none =>
        if fuel = 0 then
          { outcome := SecOutcome.raised none, attempts := 1, delays := [] }
        else
          let r := secLoop out fuel (attempt + 1)
          { outcome := r.outcome, attempts := r.attempts + 1,
            delays := backoffDelay attempt :: r.delays }

/-- `secureRequest(url, options, provider)`: run the attempt loop with the
provider's retry limit, starting at attempt 1. The per-attempt timeout
(`requestTimeouts`) is handed to `makeRequest` unchanged, and the
rate-limiter consulted before the loop is not modelled. -/
def secureRequest (provider : Provider) (out : Nat → AttemptResult) : SecResult :=
  secLoop out (retryLimits provider) 1

theorem secLoop_attempts_le (out : Nat → AttemptResult) :
    ∀ fuel attempt, (secLoop out fuel attempt).attempts ≤ fuel := by
  intro fuel
  induction fuel with
  | zero =>
    intro attempt
    simp [secLoop]
  | succ f ih =>
    intro attempt
    simp only [secLoop]
    rcases out attempt with ⟨ok, status⟩ | st
    · dsimp only
      split
      · split
        · simp
        · have := ih (attempt + 1)
          simp
          omega
      · simp
    · dsimp only
      rcases st with _ | sc
      · dsimp only
        split
        · simp
        · have := ih (attempt + 1)
          simp
          omega
      · dsimp only
        split
        · simp
        · split
          · simp
          · have := ih (attempt + 1)
            simp
            omega

theorem secLoop_attempts_pos (out : Nat → AttemptResult) :
    ∀ fuel attempt, 1 ≤ (secLoop out (fuel + 1) attempt).attempts := by
  intro fuel attempt
  simp only [secLoop]
  rcases out attempt with ⟨ok, status⟩ | st
  · dsimp only
    split
    · split
      · simp
      · simp
    · simp
  · rcases st with _ | sc
    · dsimp only
      split
      · simp
      · simp
    · dsimp only
      split
      · simp
      · split
        · simp
        · simp

theorem secLoop_delays_eq (out : Nat → AttemptResult) :
    ∀ fuel attempt,
      (secLoop out fuel attempt).delays
        = (List.range' attempt ((secLoop out fuel attempt).attempts - 1)).map backoffDelay := by
  intro fuel
  induction fuel with
  | zero =>
    intro attempt
    simp [secLoop]
  | succ f ih =>
    intro attempt
    have hrec : ∀ h1 : f ≠ 0,
        backoffDelay attempt :: (secLoop out f (attempt + 1)).delays
          = (List.range' attempt ((secLoop out f (attempt + 1)).attempts + 1 - 1)).map backoffDelay := by
      intro h1
      obtain ⟨f', rfl⟩ : ∃ f', f = f' + 1 := ⟨f - 1, by omega⟩
      have hpos := secLoop_attempts_pos out f' (attempt + 1)
      obtain ⟨a', ha'⟩ : ∃ a', (secLoop out (f' + 1) (attempt + 1)).attempts = a' + 1 :=
        ⟨(secLoop out (f' + 1) (attempt + 1)).attempts - 1, by omega⟩
      rw [ih (attempt + 1), ha']
      simp only [Nat.add_sub_cancel, List.range'_succ, List.map_cons]
    simp only [secLoop]
    rcases out attempt with ⟨ok, status⟩ | st
    · dsimp only
      split
      · split
        · simp
        · rename_i h1
          exact hrec h1
      · simp
    · rcases st with _ | sc
      · dsimp only
        split
        · simp
        · rename_i h1
          exact hrec h1
      · dsimp only
        split
        · simp
        · split
          · simp
          · rename_i h1 h2
            exact hrec h2

/-- Claim C8, amended: the `NetworkSecurity.secureRequest` helper defines the
claimed policy — a 30s timeout and an attempt limit of 3 for the remote
(Gemini) provider, a 60s timeout and an attempt limit of 2 for the local
(LM Studio) provider, exponential backoff `min(1000 * 2^(attempt-1), 10s)`
between attempts, and immediate propagation (no retry) of a thrown 4xx
error — but no analyzer routes its requests through it; the LM Studio
analyzer in particular issues exactly one request with no timeout and no
retry (see the counterexample). -/
theorem secureRequest_policy :
    (requestTimeouts Provider.gemini = 30000
      ∧ requestTimeouts Provider.lmstudio = 60000
      ∧ retryLimits Provider.gemini = 3
      ∧ retryLimits Provider.lmstudio = 2)
    ∧ (∀ (p : Provider) (out : Nat → AttemptResult),
        (secureRequest p out).attempts ≤ retryLimits p)
    ∧ (∀ (p : Provider) (out : Nat → AttemptResult) (sc : Nat),
        out 1 = AttemptResult.thrown (some sc) → 400 ≤ sc → sc < 500 →
          secureRequest p out
            = { outcome := SecOutcome.raised (some sc), attempts := 1, delays := [] })
    ∧ (∀ (p : Provider) (out : Nat → AttemptResult),
        (secureRequest p out).delays
          = (List.range' 1 ((secureRequest p out).attempts - 1)).map backoffDelay) := by
  refine ⟨⟨rfl, rfl, rfl, rfl⟩, ?_, ?_, ?_⟩
  · intro p out
    exact secLoop_attempts_le out (retryLimits p) 1
  · intro p out sc h1 h4 h5
    have hcond : (decide (400 ≤ sc) && decide (sc < 500)) = true := by
      simp [h4, h5]
    cases p
    · simp only [secureRequest, retryLimits, secLoop, h1]
      rw [if_pos hcond]
    · simp only [secureRequest, retryLimits, secLoop, h1]
      rw [if_pos hcond]
  · intro p out
    exact secLoop_delays_eq out (retryLimits p) 1

/-- A request oracle that always throws an error carrying status 401. -/
def clientErrorResponses : Nat → AttemptResult :=
  fun _ => AttemptResult.thrown (some 401)

/-- Witness for the amended C8: with a thrown 401, `secureRequest` for the
Gemini provider raises it after exactly one attempt with no backoff sleeps. -/
theorem secureRequest_policy_witness :
    secureRequest Provider.gemini clientErrorResponses
      = { outcome := SecOutcome.raised (some 401), attempts := 1, delays := [] } :=
  secureRequest_policy.2.2.1 Provider.gemini clientErrorResponses 401 rfl
    (by decide) (by decide)

/-- The single chat-completions request of `lmstudio-vision.js`
`analyzeImage`, fed from an attempt-indexed oracle of prepared responses:
the code performs exactly one `fetch`, so only the first prepared response
is ever consumed. -/
def analyzeImageSeq (basename : Str) (responses : Nat → LMOutcome) (now : Nat) : Str :=
  analyzeImage basename (responses 1) now

/-- Prepared responses whose first attempt fails with a retryable 503 and
whose second attempt would succeed with `login_screen`. -/
def retryProbeResponses : Nat → LMOutcome :=
  fun k => if k = 1 then LMOutcome.httpError 503 else LMOutcome.ok (str "login_screen")

/-- Counterexample for C8 as stated: the LM Studio analysis path performs no
retry at all — with a 503 on the first attempt and a success available on
the second, `analyzeImage` returns the timestamp fallback instead of the
name a retry would have produced, so the claimed up-to-2-retry /
60s-timeout policy is not enforced on analysis requests. -/
theorem lmstudio_analysis_no_retry :
    analyzeImageSeq (str "shot") retryProbeResponses 1718901015123
        = str "image_1718901015123"
    ∧ retryProbeResponses 2 = LMOutcome.ok (str "login_screen")
    ∧ analyzeImage (str "shot") (retryProbeResponses 2) 1718901015123
        = str "login_screen" := by
  refine ⟨by decide, rfl, by decide⟩

/-! ### Batch previewer (`batch-previewer.js` `generatePreview`) and batch
settings (`batch-settings.js` `generateFilename`, `findUniqueFilename`) -/

/-- A directory entry as seen through `readdir` + `stat`. -/
structure DirEnt where
  name : Str
  isFile : Bool
deriving DecidableEq

inductive ProcessMode where
  | rename
  | copy
  | preview
deriving DecidableEq

/-- The batch settings consumed by the previewer and the filename generator
(`defaultPrefixVal` models the `defaultPrefix` field; the separator is a
single character, as in all shipped configurations). -/
structure BatchSettingsS where
  fileTypes : List Str
  skipProcessed : Bool
  processMode : ProcessMode
  filenameFormat : Str
  defaultPrefixVal : Str
  separator : Char
deriving DecidableEq

/-- Filesystem operations performed by the batch code; only `renameOp`,
`copyOp` and `mkdirOp` mutate the filesystem. -/
inductive FsOp where
  | readdir
  | statOp (name : Str)
  | accessOp (name : Str)
  | renameOp (a b : Str)
  | copyOp (a b : Str)
  | mkdirOp (d : Str)
deriving DecidableEq

def FsOp.mutates : FsOp → Bool
  | FsOp.renameOp _ _ => true
  | FsOp.copyOp _ _ => true
  | FsOp.mkdirOp _ => true
  | _ => false

/-- Effect of one operation on a directory listing (reads leave it alone). -/
def applyOp (names : List Str) (op : FsOp) : List Str :=
  match op with
  | FsOp.renameOp a b => if a ∈ names then names.erase a ++ [b] else names
  | FsOp.copyOp _ b => names ++ [b]
  | _ => names

def applyOps (names : List Str) (ops : List FsOp) : List Str :=
  ops.foldl applyOp names

theorem applyOps_of_no_mutation :
    ∀ (ops : List FsOp) (names : List Str),
      (∀ op ∈ ops, op.mutates = false) → applyOps names ops = names := by
  intro ops
  induction ops with
  | nil =>
    intro names _
    rfl
  | cons op ops ih =>
    intro names h
    have hop := h op (List.mem_cons_self _ _)
    have hstep : applyOp names op = names := by
      cases op <;> first | rfl | (simp [FsOp.mutates] at hop)
    simp only [applyOps, List.foldl_cons, hstep]
    exact ih names (fun o ho => h o (List.mem_cons_of_mem _ ho))

/-- JS `String.prototype.replace` with a literal pattern: first occurrence. -/
def replaceFirst (l pat rep : Str) : Str :=
  match l with
  | [] => []
  | c :: cs =>
    if pat.isPrefixOf (c :: cs) then rep ++ (c :: cs).drop pat.length
    else c :: replaceFirst cs pat rep

/-- `batch-settings.js` `generateFilename`: clean the analysis with the
configured separator, substitute a timestamped generic description when the
cleaned description is degenerate, apply the filename format template, clean
up doubled separators, and append the original extension. `now` is the
epoch-millisecond clock and `currentDate` the `YYYY-MM-DD` date string. -/
def generateFilename (analysis originalExt : Str) (s : BatchSettingsS)
    (now : Nat) (currentDate : Str) : Str :=
  let sep := s.separator
  let d1 := (analysis.map jsToLower).filter
    (fun c => isJsWordChar c || isJsSpace c || isHyphen c)
  let d2 := replaceRuns isJsSpace sep d1
  let d3 := replaceRuns (fun c => c == sep) sep d2
  let d4 := dropOneTrailing sep (dropOneLeading sep d3)
  let d5 := d4.take 50
  let description :=
    if d5.isEmpty || decide (d5.length < 3) || d5 == str "image" || d5 == str "screenshot"
    then str "image" ++ sep :: natRepr now
    else d5
  let f1 := replaceFirst s.filenameFormat (str "\x7bdescription\x7d") description
  let f2 := replaceFirst f1 (str "\x7bprefix\x7d")
    (if s.defaultPrefixVal.isEmpty then str "img" else s.defaultPrefixVal)
  let f3 := replaceFirst f2 (str "\x7bdate\x7d") currentDate
  let f4 := replaceFirst f3 (str "\x7bseparator\x7d") [sep]
  let f5 := replaceRuns (fun c => c == sep) sep f4
  let f6 := dropOneTrailing sep (dropOneLeading sep f5)
  f6 ++ originalExt

/-- One candidate of `batch-settings.js` `findUniqueFilename`: the base
filename itself first, then `<stem>_<counter><ext>`. -/
def bsCandidate (base stem ext : Str) (counter : Nat) : Str :=
  if counter = 1 then base else stem ++ '_' :: (natRepr counter ++ ext)

/-- The existence loop of `findUniqueFilename`, with its access trace. -/
def bsFindUniqueFromT (base stem ext : Str) (dir : List Str) : Nat → Nat → Str × List Str
  | _, 0 => (base, [])
  | counter, fuel + 1 =>
    let c := bsCandidate base stem ext counter
    if c ∈ dir then
      let r := bsFindUniqueFromT base stem ext dir (counter + 1) fuel
      (r.1, c :: r.2)
    else (c, [c])

/-- `batch-settings.js` `findUniqueFilename(baseFilename, directory)`. -/
def bsFindUniqueFilename (base : Str) (dir : List Str) : Str × List Str :=
  bsFindUniqueFromT base (basenameMinus base (extnameOf base)) (extnameOf base)
    dir 1 (dir.length + 1)

/-- The lowercased extension without its dot, as compared against the
configured `fileTypes` (`path.extname(file).toLowerCase().substring(1)`). -/
def previewExtOf (name : Str) : Str := ((extnameOf name).map jsToLower).drop 1

/-- JS default `Array.prototype.sort()` comparison on strings (code-unit
lexicographic order). -/
def strLeB : Str → Str → Bool
  | [], _ => true
  | _ :: _, [] => false
  | a :: as, b :: bs => if a.toNat = b.toNat then strLeB as bs else decide (a.toNat < b.toNat)

def insertSorted (x : Str) : List Str → List Str
  | [] => [x]
  | y :: ys => if strLeB x y then x :: y :: ys else y :: insertSorted x ys

/-- JS `Array.prototype.sort()` (insertion sort; same sorted result). -/
def sortStrs : List Str → List Str
  | [] => []
  | x :: xs => insertSorted x (sortStrs xs)

theorem length_insertSorted (x : Str) :
    ∀ l : List Str, (insertSorted x l).length = l.length + 1 := by
  intro l
  induction l with
  | nil => rfl
  | cons y ys ih =>
    simp only [insertSorted]
    split
    · simp
    · simp [ih]

theorem length_sortStrs : ∀ l : List Str, (sortStrs l).length = l.length := by
  intro l
  induction l with
  | nil => rfl
  | cons x xs ih =>
    simp only [sortStrs, length_insertSorted, ih, List.length_cons]

/-- `getImageFiles(folderPath, fileTypes)`: `readdir`, `stat` each entry,
keep the regular files whose extension is configured, and sort. Returns the
kept names and the performed operations. -/
def getImageFiles (listing : List DirEnt) (fileTypes : List Str) :
    List Str × List FsOp :=
  (sortStrs ((listing.filter
      (fun e => e.isFile && fileTypes.contains (previewExtOf e.name))).map DirEnt.name),
   FsOp.readdir :: listing.map (fun e => FsOp.statOp e.name))

/-- `generateMockAnalysis(fileName)`: keyword-based mock names, otherwise a
cleaned form of the basename. -/
def generateMockAnalysis (fileName : Str) : Str :=
  let lowerName := fileName.map jsToLower
  if containsSub (str "screenshot") lowerName then str "application_screenshot_interface"
  else if containsSub (str "login") lowerName then str "user_login_form"
  else if containsSub (str "dashboard") lowerName then str "admin_dashboard_view"
  else if containsSub (str "profile") lowerName then str "user_profile_page"
  else if containsSub (str "settings") lowerName then str "application_settings_menu"
  else if containsSub (str "img_") lowerName || containsSub (str "image") lowerName then
    str "generic_image_content"
  else
    let baseName := basenameMinus fileName (extnameOf fileName)
    let lowered := baseName.map jsToLower
    let replaced := lowered.map (fun c =>
      if decide (97 ≤ c.toNat ∧ c.toNat ≤ 122) || decide (48 ≤ c.toNat ∧ c.toNat ≤ 57)
          || isJsSpace c
      then c else ' ')
    let spaced := replaceRuns isJsSpace '_' replaced
    let trimmed := dropOneTrailing '_' (dropOneLeading '_' spaced)
    let cut := trimmed.take 30
    if cut.isEmpty then str "unknown_content" else cut

/-- The preview placeholder analysis used when mock analysis is off:
`analyzed_` plus the stem with non-alphanumerics replaced by `_`. -/
def placeholderAnalysis (stem : Str) : Str :=
  str "analyzed_" ++ (stem.map jsToLower).map (fun c =>
    if decide (97 ≤ c.toNat ∧ c.toNat ≤ 122) || decide (48 ≤ c.toNat ∧ c.toNat ≤ 57)
    then c else '_')

inductive ChangeStatus where
  | skipped
  | noChange
  | renameSt
deriving DecidableEq

structure PreviewChange where
  originalName : Str
  newName : Str
  status : ChangeStatus
deriving DecidableEq

structure PreviewReport where
  totalFiles : Nat
  processableFiles : Nat
  skippedFiles : Nat
  changes : List PreviewChange
deriving DecidableEq

/-- One iteration of the preview loop: skip an already-processed stem, or
produce a mock/placeholder analysis, generate a filename, resolve conflicts
(reading the destination listing) and `stat` the file for its size. Returns
the change entry, the performed operations, and whether the file counts as
processable. -/
def previewFile (s : BatchSettingsS) (mock : Bool) (now : Nat) (currentDate : Str)
    (dirNames destNames : List Str) (fileName : Str) :
    PreviewChange × List FsOp × Bool :=
  let ext := extnameOf fileName
  let stem := basenameMinus fileName ext
  if s.skipProcessed && matchesProcessedRegex stem then
    ({ originalName := fileName, newName := fileName, status := ChangeStatus.skipped },
     [], false)
  else
    let analysis := if mock then generateMockAnalysis fileName else placeholderAnalysis stem
    let newFileName := generateFilename analysis ext s now currentDate
    let checkNames := if s.processMode = ProcessMode.copy then destNames else dirNames
    let r := bsFindUniqueFilename newFileName checkNames
    ({ originalName := fileName, newName := r.1,
       status := if fileName = r.1 then ChangeStatus.noChange else ChangeStatus.renameSt },
     r.2.map FsOp.accessOp ++ [FsOp.statOp fileName], true)

/-- The preview loop over the sorted image files, accumulating change
entries, operations, and processable/skipped counts. -/
def previewLoop (s : BatchSettingsS) (mock : Bool) (now : Nat) (currentDate : Str)
    (dirNames destNames : List Str) : List Str → List PreviewChange × List FsOp × Nat × Nat
  | [] => ([], [], 0, 0)
  | f :: fs =>
    let r := previewFile s mock now currentDate dirNames destNames f
    let rest := previewLoop s mock now currentDate dirNames destNames fs
    (r.1 :: rest.1, r.2.1 ++ rest.2.1,
     (if r.2.2 then 1 else 0) + rest.2.2.1,
     (if r.2.2 then 0 else 1) + rest.2.2.2)

/-- `generatePreview(folderPath, mockAnalysis)`: enumerate and filter the
directory, and walk the image files without ever issuing a mutating
operation; `totalFiles` is the number of qualifying image files. -/
def generatePreview (listing : List DirEnt) (s : BatchSettingsS) (mock : Bool)
    (now : Nat) (currentDate : Str) (destNames : List Str) :
    PreviewReport × List FsOp :=
  let gif := getImageFiles listing s.fileTypes
  let imageFiles := gif.1
  if imageFiles.isEmpty then
    ({ totalFiles := 0, processableFiles := 0, skippedFiles := 0, changes := [] }, gif.2)
  else
    let dirNames := listing.map DirEnt.name
    let run := previewLoop s mock now currentDate dirNames destNames imageFiles
    ({ totalFiles := imageFiles.length, processableFiles := run.2.2.1,
       skippedFiles := run.2.2.2, changes := run.1 }, gif.2 ++ run.2.1)

theorem previewFile_no_mutation (s : BatchSettingsS) (mock : Bool) (now : Nat)
    (currentDate : Str) (dirNames destNames : List Str) (fileName : Str) :
    ∀ op ∈ (previewFile s mock now currentDate dirNames destNames fileName).2.1,
      op.mutates = false := by
  intro op hop
  unfold previewFile at hop
  by_cases hskip : (s.skipProcessed
      && matchesProcessedRegex (basenameMinus fileName (extnameOf fileName))) = true
  · simp [hskip] at hop
  · simp only [Bool.not_eq_true] at hskip
    simp only [hskip, Bool.false_eq_true, if_false] at hop
    simp only [List.mem_append, List.mem_map, List.mem_singleton] at hop
    rcases hop with ⟨n, _, rfl⟩ | rfl
    · rfl
    · rfl

theorem previewLoop_no_mutation (s : BatchSettingsS) (mock : Bool) (now : Nat)
    (currentDate : Str) (dirNames destNames : List Str) :
    ∀ files : List Str,
      ∀ op ∈ (previewLoop s mock now currentDate dirNames destNames files).2.1,
        op.mutates = false := by
  intro files
  induction files with
  | nil =>
    intro op hop
    simp [previewLoop] at hop
  | cons f fs ih =>
    intro op hop
    simp only [previewLoop, List.mem_append] at hop
    rcases hop with h | h
    · exact previewFile_no_mutation s mock now currentDate dirNames destNames f op h
    · exact ih op h

/-- Claim C7: batch preview reports `totalFiles` equal to the number of
qualifying image files in the directory (regular files with a configured
extension) and performs zero filesystem mutations — every operation it
issues is a read, so applying its operation trace to any directory listing
leaves the listing unchanged. -/
theorem generatePreview_counts_and_no_mutation (listing : List DirEnt)
    (s : BatchSettingsS) (mock : Bool) (now : Nat) (currentDate : Str)
    (destNames : List Str) :
    (generatePreview listing s mock now currentDate destNames).1.totalFiles
        = (listing.filter
            (fun e => e.isFile && s.fileTypes.contains (previewExtOf e.name))).length
    ∧ (∀ op ∈ (generatePreview listing s mock now currentDate destNames).2,
        op.mutates = false)
    ∧ ∀ names : List Str,
        applyOps names (generatePreview listing s mock now currentDate destNames).2 = names := by
  have hread : ∀ op ∈ (getImageFiles listing s.fileTypes).2, FsOp.mutates op = false := by
    intro op hop
    simp only [getImageFiles, List.mem_cons, List.mem_map] at hop
    rcases hop with rfl | ⟨e, _, rfl⟩
    · rfl
    · rfl
  have hnomut : ∀ op ∈ (generatePreview listing s mock now currentDate destNames).2,
      op.mutates = false := by
    intro op hop
    unfold generatePreview at hop
    dsimp only at hop
    split at hop
    · exact hread op hop
    · simp only [List.mem_append] at hop
      rcases hop with h | h
      · exact hread op h
      · exact previewLoop_no_mutation s mock now currentDate _ destNames _ op h
  refine ⟨?_, hnomut, ?_⟩
  · unfold generatePreview
    dsimp only
    split
    · rename_i hemp
      simp only [getImageFiles, List.isEmpty_iff] at hemp
      have := congrArg List.length hemp
      rw [length_sortStrs, List.length_map] at this
      simp only [this]
      rfl
    · simp only [getImageFiles, length_sortStrs, List.length_map]
  · intro names
    exact applyOps_of_no_mutation _ names hnomut

end ScreenshotRenamer
